import Mathlib

/-!
Shallow embedding of the mark-extraction and aggregation engine of
`src/prograde/__main__.py` (project-grader).

Conventions of the embedding:
* Python floats are modelled as rationals (`ℚ`); the spec calls mark values
  "non-negative real numbers" and all arithmetic here is exact.
* Python `None` returns become `Option.none`; raised exceptions become
  `Except.error` carrying a `PyErr` that records the Python exception class
  (and the message where it is deterministic in the source).
* A pandas `DataFrame` becomes a `Table`: an explicit column registry plus
  rows of (index label, association list of cell values).  A missing cell
  (pandas `NaN`) is modelled as absence of the key in the row.
* Python `dict`s become association lists with first-occurrence replacement
  and append-at-end insertion, matching `dict` update semantics.
* File-system and notebook-file reading (`nbf.read`, `glob`) are I/O which the
  spec lists as external; the cell list of each notebook and the glob result
  of each project directory are passed in as values.
-/

deriving instance DecidableEq for Except

/-- Python exception classes raised by the translated code. -/
inductive PyErr where
  | runtimeError : String → PyErr
  | valueError : String → PyErr
  | assertionError : PyErr
  | typeError : String → PyErr
  | keyError : String → PyErr
  deriving DecidableEq

/-- A cell value of the roster table: either a number or a string. -/
inductive Val where
  | num : ℚ → Val
  | str : String → Val
  deriving DecidableEq

/-- Result of the mark-block scan: category name to numeric value,
in Python-dict insertion order. -/
abbrev Marks := List (String × ℚ)

/-- First-match association-list lookup (Python dict indexing). -/
def alookup {α : Type} : List (String × α) → String → Option α
  | [], _ => none
  | (k, v) :: rest, q => if q = k then some v else alookup rest q

/-- Python-dict assignment `d[k] = v`: replace the (first) entry with key `k`
in place, or append a new entry at the end. -/
def aset {α : Type} : List (String × α) → String → α → List (String × α)
  | [], k, v => [(k, v)]
  | (k2, v2) :: rest, k, v =>
      if k2 = k then (k, v) :: rest else (k2, v2) :: aset rest k v

/-- The fixed category tuple `MARK_CATEGORIES` from the source. -/
def MARK_CATEGORIES : List String :=
  ["Questions", "Analysis", "Results", "Readability", "Writing",
   "Reproducibility"]

/-- Python `set(a) == set(b)` on the key lists compared by the schema assert:
unordered set equality. -/
def keySetEq (a b : List String) : Bool :=
  a.all (fun x => b.contains x) && b.all (fun x => a.contains x)

/-- Characters the Python regex class `\s` matches (ASCII part). -/
def isPySpace (c : Char) : Bool :=
  c = ' ' || c = '\t' || c = '\n' || c = '\r' || c = '\x0b' || c = '\x0c'

/-- Characters the Python regex class `\w` matches (ASCII part). -/
def isWordChar (c : Char) : Bool :=
  c.isAlpha || c.isDigit || c = '_'

/-- Characters of the regex class `[0-9.]`. -/
def isDigitDot (c : Char) : Bool :=
  c.isDigit || c = '.'

/-- Python `str.splitlines` restricted to the line breaks
`\n`, `\r` and `\r\n`: split at each break, no entry for a trailing break. -/
def pySplitlinesAux : List Char → List Char → List String
  | [], acc => if acc.isEmpty then [] else [String.mk acc.reverse]
  | '\r' :: '\n' :: rest, acc => String.mk acc.reverse :: pySplitlinesAux rest []
  | '\r' :: rest, acc => String.mk acc.reverse :: pySplitlinesAux rest []
  | '\n' :: rest, acc => String.mk acc.reverse :: pySplitlinesAux rest []
  | c :: rest, acc => pySplitlinesAux rest (c :: acc)

/-- Python `s.splitlines()`. -/
def pySplitlines (s : String) : List String :=
  pySplitlinesAux s.data []

/-- One step of `re.match` for the pattern
`\*\s*(\w*)\s*:\s*([0-9.]+)\s*$` from `get_nb_marks`, returning the two
captured groups.  The greedy left-to-right scan below is equivalent to the
backtracking regex: each quantified class (`\s`, `\w`, `[0-9.]`) is disjoint
from the character that must follow it, so giving back characters can never
turn a failed match into a successful one. -/
def matchMarkLine (L : String) : Option (String × String) :=
  match L.data with
  | [] => none
  | c :: rest =>
    if c = '*' then
      let r1 := rest.dropWhile isPySpace
      let key := r1.takeWhile isWordChar
      let r2 := (r1.dropWhile isWordChar).dropWhile isPySpace
      match r2 with
      | ':' :: r3 =>
        let r4 := r3.dropWhile isPySpace
        let tok := r4.takeWhile isDigitDot
        let r5 := r4.dropWhile isDigitDot
        if tok.isEmpty then none
        else if r5.all isPySpace then some (String.mk key, String.mk tok)
        else none
      | _ => none
    else none

/-- Numeric value of a digit run. -/
def digitsVal (ds : List Char) : ℕ :=
  ds.foldl (fun a c => a * 10 + (c.toNat - 48)) 0

/-- Python `float(s)` for the strings the regex group `[0-9.]+` can produce
(digits and dots only): conversion succeeds exactly when the token holds at
least one digit and at most one dot, else `float` raises `ValueError`. -/
def pyFloat (s : String) : Option ℚ :=
  let t := s.data
  if t.count '.' ≤ 1 && t.any Char.isDigit then
    let ip := t.takeWhile (fun c => c ≠ '.')
    let fp := (t.dropWhile (fun c => c ≠ '.')).drop 1
    some ((digitsVal ip : ℚ) + (digitsVal fp : ℚ) / ((10 : ℚ) ^ fp.length))
  else none

/-- The scan loop of `get_nb_marks`: fold the remaining lines into the
`marks` dict; a non-matching line is skipped, a matching line converts its
numeric token with `float` (which can raise) and assigns `marks[k] = v`. -/
def scanLinesAux (acc : Marks) : List String → Except PyErr Marks
  | [] => .ok acc
  | L :: rest =>
    match matchMarkLine L with
    | none => scanLinesAux acc rest
    | some (k, t) =>
      match pyFloat t with
      | none => .error (.valueError ("could not convert string to float: " ++ t))
      | some v => scanLinesAux (aset acc k v) rest

/-- The scan loop started on an empty dict. -/
def scanLines (ls : List String) : Except PyErr Marks :=
  scanLinesAux [] ls

/-- A notebook cell: its `cell_type` and its `source` text. -/
structure Cell where
  cell_type : String
  source : String
  deriving DecidableEq

/-- A notebook document: its cell list (the part of the nbformat object that
`get_nb_marks` reads). -/
structure Notebook where
  cells : List Cell
  deriving DecidableEq

/-- `get_nb_marks`: examine the last cell; `None` unless the document has a
last cell of type markdown whose text has at least two lines, the first being
exactly the header; otherwise pop the header, skip the next line, and scan
the rest.  `.ok none` is Python `None`, `.ok (some ms)` a returned dict. -/
def getNbMarks (nb : Notebook) : Except PyErr (Option Marks) :=
  match nb.cells.getLast? with
  | none => .ok none
  | some lastCell =>
    if lastCell.cell_type ≠ "markdown" then .ok none
    else
      let ls := pySplitlines lastCell.source
      if ls.length < 2 then .ok none
      else if ls.head? ≠ some "## Marks" then .ok none
      else
        match scanLines (ls.drop 2) with
        | .error e => .error e
        | .ok ms => .ok (some ms)

/-- `get_proj_marks` on the glob result of a project directory: first
truthy (non-`None`, non-empty) parse wins; `None` when the candidates run
out. -/
def getProjMarks : List Notebook → Except PyErr (Option Marks)
  | [] => .ok none
  | nb :: rest =>
    match getNbMarks nb with
    | .error e => .error e
    | .ok none => getProjMarks rest
    | .ok (some ms) => if ms.isEmpty then getProjMarks rest else .ok (some ms)

/-- Whether an `Except` result is a raised exception. -/
def isErr {α : Type} : Except PyErr α → Bool
  | .error _ => true
  | .ok _ => false

/-- A pandas `DataFrame`: the registered column labels (in order) and the
rows, each an index label together with its cells.  A cell that holds `NaN`
is modelled by the absence of its column key from the row. -/
structure Table where
  cols : List String
  rows : List (String × List (String × Val))
  deriving DecidableEq

/-- A single roster row's cells. -/
abbrev Row := List (String × Val)

/-- Register new column labels, keeping first-seen order (pandas adds columns
referenced by an enlarging `.loc` assignment at the end). -/
def addCols (cs : List String) (ks : List String) : List String :=
  ks.foldl (fun acc k => if acc.contains k then acc else acc ++ [k]) cs

/-- `class_list.loc[member, list(marks)] = marks`: write every (column,
value) pair of `marks` onto the row labelled `member`, updating the row in
place when the label exists and appending a fresh row otherwise (pandas
setting-with-enlargement). -/
def updRow (m : String) (entries : Row) (sr : String × Row) : String × Row :=
  if sr.1 = m then (sr.1, entries.foldl (fun r p => aset r p.1 p.2) sr.2)
  else sr

def setRow (t : Table) (m : String) (entries : Row) : Table :=
  ⟨addCols t.cols (entries.map (fun p => p.1)),
   if t.rows.any (fun sr => sr.1 = m) then t.rows.map (updRow m entries)
   else t.rows ++ [(m, entries.foldl (fun r p => aset r p.1 p.2) [])]⟩

/-- The per-project configuration: the `members` dict (login →
contribution score) and the presentation score. -/
structure PConfig where
  members : List (String × ℚ)
  presentation : ℚ
  deriving DecidableEq

/-- The `export:` sub-mapping of the configuration. -/
structure XConfig where
  merge_col : Option String
  col_map : Option (List (String × String))
  fname : Option String
  deriving DecidableEq

/-- The configuration keys the translated functions read. -/
structure Config where
  projects : List (String × PConfig)
  marks_col : Option String
  round_final : Bool
  canvas_export_path : Option String
  export_ : Option XConfig
  deriving DecidableEq

/-- The `marks` dict built for a project before the member loop:
`{'Project name': name, 'Presentation': pconfig['presentation']}` followed by
`marks.update(proj_marks)`. -/
def projEntries (name : String) (pres : ℚ) (pm : Marks) : Row :=
  (pm.map (fun p => (p.1, Val.num p.2))).foldl (fun a p => aset a p.1 p.2)
    [("Project name", Val.str name), ("Presentation", Val.num pres)]

/-- The member loop of `get_marks`: set `marks['Contribution']` to the
member's contribution score and assign the dict onto the member's roster
row. -/
def writeMembers (t : Table) (name : String) (pc : PConfig) (pm : Marks) :
    Table :=
  pc.members.foldl
    (fun t2 mp =>
      setRow t2 mp.1 (aset (projEntries name pc.presentation pm) "Contribution"
        (Val.num mp.2)))
    t

/-- The project loop of `get_marks`: locate the project's marks, fail with
`RuntimeError` on a missing mark block unless allowed (then skip), `assert`
the parsed key set equals the fixed category set, and write the marks onto
every member row. -/
def runProjects (fs : String → List Notebook) (allow : Bool) :
    List (String × PConfig) → Table → Except PyErr Table
  | [], t => .ok t
  | (name, pc) :: rest, t =>
    match getProjMarks (fs name) with
    | .error e => .error e
    | .ok none =>
      if allow then runProjects fs allow rest t
      else .error (.runtimeError ("Missing project marks for " ++ name))
    | .ok (some pm) =>
      if keySetEq (pm.map (fun p => p.1)) MARK_CATEGORIES then
        runProjects fs allow rest (writeMembers t name pc pm)
      else .error .assertionError

/-- The seven averaged columns `('Presentation',) + MARK_CATEGORIES`. -/
def sevenCols : List String := "Presentation" :: MARK_CATEGORIES

/-- `.loc[:, cols].astype(float)` restricted to one row: collect the present
cell values in column order, skipping absent cells (`NaN`), and raise
`ValueError` on a string cell. -/
def collectVals (r : Row) : List String → Except PyErr (List ℚ)
  | [] => .ok []
  | c :: cs =>
    match alookup r c with
    | none => collectVals r cs
    | some (Val.num q) =>
      match collectVals r cs with
      | .error e => .error e
      | .ok vs => .ok (q :: vs)
    | some (Val.str s) =>
      .error (.valueError ("could not convert string to float: " ++ s))

/-- Pandas `.mean(axis=1)` with the default `skipna`: the mean of the
present values, `NaN` (here: `none`) when none are present. -/
def meanOpt (vs : List ℚ) : Option ℚ :=
  if vs.isEmpty then none else some (vs.sum / (vs.length : ℚ))

/-- Numpy/pandas `.round()`: round half to even. -/
def pyRound (q : ℚ) : ℚ :=
  let f : ℤ := q.floor
  let r : ℚ := q - (f : ℚ)
  if r < 1 / 2 then (f : ℚ)
  else if 1 / 2 < r then (f : ℚ) + 1
  else if f % 2 = 0 then (f : ℚ) else (f : ℚ) + 1

/-- Remove a cell: a pandas assignment of `NaN` in our absence model. -/
def rerase (r : Row) (k : String) : Row :=
  r.filter (fun p => p.1 ≠ k)

/-- The final-score assignment applied row by row: mean of the seven mark
columns, optionally rounded, written into the marks column (or `NaN`, i.e.
erased, for a row with no mark values). -/
def finalizeRows (projCol : String) (roundF : Bool) :
    List (String × Row) → Except PyErr (List (String × Row))
  | [] => .ok []
  | (s, r) :: rest =>
    match collectVals r sevenCols with
    | .error e => .error e
    | .ok vs =>
      match finalizeRows projCol roundF rest with
      | .error e => .error e
      | .ok rs =>
        .ok ((s,
          match meanOpt vs with
          | some q => aset r projCol (Val.num (if roundF then pyRound q else q))
          | none => rerase r projCol) :: rs)

/-- The tail of `get_marks`:
`class_list[proj_col] = class_list.loc[:, seven].astype(float).mean(axis=1)`
plus the optional rounding.  `.loc[:, seven]` raises `KeyError` when one of
the seven columns was never created. -/
def addFinal (projCol : String) (roundF : Bool) (t : Table) :
    Except PyErr Table :=
  if sevenCols.all (fun c => t.cols.contains c) then
    match finalizeRows projCol roundF t.rows with
    | .error e => .error e
    | .ok rs => .ok ⟨addCols t.cols [projCol], rs⟩
  else .error (.keyError "columns not in index")

/-- `get_marks`: run the project loop over the roster produced by
`get_class_list` (roster retrieval is external, so the roster table is a
parameter, as is the directory content `fs` of each project), then compute
the final-score column. -/
def getMarks (cfg : Config) (fs : String → List Notebook) (allow : Bool)
    (roster : Table) : Except PyErr Table :=
  match runProjects fs allow cfg.projects roster with
  | .error e => .error e
  | .ok t => addFinal (cfg.marks_col.getD "Project %") cfg.round_final t

/-- `m.split('@')[0]`: the part of a member string before the first `@`. -/
def memberLogin (m : String) : String :=
  String.mk (m.data.takeWhile (fun c => c ≠ '@'))

/-- The loop of `check_config`: for each project compare the member logins
(the part before any `@`) against the roster index, raising `ValueError` on
an unknown login or on overlap with the members seen so far.  The real
message for unknown students also lists the offending logins in Python-set
iteration order (nondeterministic), which the model omits; the overlap
message is deterministic and kept verbatim. -/
def checkConfigAux (known : List String) :
    List String → List (String × PConfig) → Except PyErr Unit
  | _, [] => .ok ()
  | allM, (name, pc) :: rest =>
    let logins := pc.members.map (fun mp => memberLogin mp.1)
    if logins.any (fun m => !(known.contains m)) then
      .error (.valueError ("Unknown students in " ++ name))
    else if logins.any (fun m => allM.contains m) then
      .error (.valueError ("Students in " ++ name ++ " overlap with other project"))
    else checkConfigAux known (allM ++ logins) rest

/-- `check_config`: membership validation against the roster index (the
trailing missing-students report only prints and writes a CSV, so the model
returns unit). -/
def checkConfig (cfg : Config) (known : List String) : Except PyErr Unit :=
  checkConfigAux known [] cfg.projects

/-- `mark_df[[...]]` column selection. -/
def selectCols (t : Table) (cs : List String) : Table :=
  ⟨cs, t.rows.map (fun sr =>
    (sr.1, cs.foldl (fun acc c =>
      match alookup sr.2 c with
      | some v => acc ++ [(c, v)]
      | none => acc) []))⟩

/-- `.rename(columns=out_col_map)` on one label. -/
def renameCol (cmap : List (String × String)) (c : String) : String :=
  match alookup cmap c with
  | some c2 => c2
  | none => c

/-- `.rename(columns=out_col_map)` on a table. -/
def renameCols (t : Table) (cmap : List (String × String)) : Table :=
  ⟨t.cols.map (renameCol cmap),
   t.rows.map (fun sr => (sr.1, sr.2.map (fun p => (renameCol cmap p.1, p.2))))⟩

/-- `canvas_df.merge(mark_df, on=merge_col)`: the generic inner join the
spec lists as an external collaborator, modelled shallowly as a key-equality
product. -/
def innerJoin (a b : Table) (key : String) : Table :=
  ⟨a.cols ++ (b.cols.filter (fun c => c ≠ key)),
   a.rows.foldr (fun ra acc =>
     (b.rows.foldr (fun rb acc2 =>
        match alookup ra.2 key, alookup rb.2 key with
        | some va, some vb =>
          if va = vb then
            (ra.1, ra.2 ++ rb.2.filter (fun p => p.1 ≠ key)) :: acc2
          else acc2
        | _, _ => acc2) []) ++ acc) []⟩

/-- `export_marks`: aggregate via `get_marks`, require `canvas_export_path`
(explicit `RuntimeError` when absent), then select and rename the configured
columns and inner-join the external gradebook table on the merge column.
`list(out_col_map)` on a missing `col_map` raises `TypeError`; indexing with
a label list containing `None` (missing `merge_col`) or any unknown label
raises `KeyError`; reading the external gradebook (`to_minimal_df`) is
external, so the gradebook table is a parameter. -/
def exportMarks (cfg : Config) (fs : String → List Notebook) (allow : Bool)
    (roster : Table) (canvas_df : Table) : Except PyErr Table :=
  match getMarks cfg fs allow roster with
  | .error e => .error e
  | .ok mark_df =>
    match cfg.canvas_export_path with
    | none => .error (.runtimeError "Set \"canvas_export_path\" in config")
    | some _ =>
      let ec := cfg.export_.getD ⟨none, none, none⟩
      match ec.col_map with
      | none => .error (.typeError "argument of type NoneType is not iterable")
      | some cmap =>
        let labels : List (Option String) :=
          ec.merge_col :: cmap.map (fun p => some p.1)
        if labels.all (fun l =>
            match l with
            | some c => mark_df.cols.contains c
            | none => false) then
          match ec.merge_col with
          | some mc =>
            let renamed :=
              renameCols (selectCols mark_df (mc :: cmap.map (fun p => p.1)))
                cmap
            if canvas_df.cols.contains mc && renamed.cols.contains mc then
              .ok (innerJoin canvas_df renamed mc)
            else .error (.keyError mc)
          | none => .error (.keyError "columns not in index")
        else .error (.keyError "columns not in index")

/-- Cell access on the aggregated table (first row with the label). -/
def getCell (t : Table) (s c : String) : Option Val :=
  match alookup t.rows s with
  | none => none
  | some r => alookup r c

def nbA : Notebook :=
  ⟨[⟨"markdown", "## Marks\n\n* Questions: 9\n* Analysis: 7\n* Results: 8\n* Readability: 9\n* Writing: 8\n* Reproducibility: 7"⟩]⟩

def cfgA : Config :=
  ⟨[("projA", ⟨[("s1", 9)], 8⟩)], none, false, none, none⟩

def rosterA : Table :=
  ⟨["login"], [("s1", [("login", Val.str "s1")])]⟩

def cfgB : Config :=
  ⟨[("p1", ⟨[("bob", 1)], 5⟩)], none, false, none, none⟩

def rosterB : Table :=
  ⟨["login"], [("alice", [("login", Val.str "alice")])]⟩

def nbB : Notebook :=
  ⟨[⟨"markdown", "## Marks\n\n* Questions: 1\n* Analysis: 1\n* Results: 1\n* Readability: 1\n* Writing: 1\n* Reproducibility: 1"⟩]⟩

/-- The entry a single scanned line contributes: the regex match combined
with the numeric conversion. -/
def lineEntry (L : String) : Option (String × ℚ) :=
  match matchMarkLine L with
  | none => none
  | some (k, t) =>
    match pyFloat t with
    | none => none
    | some v => some (k, v)

/-- A line on which the scan raises: the regex matches but `float` fails on
the captured numeric token. -/
def badLine (L : String) : Prop :=
  ∃ k t, matchMarkLine L = some (k, t) ∧ pyFloat t = none

instance (L : String) : Decidable (badLine L) := by
  unfold badLine
  match h : matchMarkLine L with
  | none => exact .isFalse (by simp [h])
  | some (k, t) =>
    match hf : pyFloat t with
    | none => exact .isTrue ⟨k, t, rfl, hf⟩
    | some v => exact .isFalse (by simp [h, hf])

/-- Value contributed for category `k` by the last line of `ls` that both
matches the pattern and converts: "last occurrence wins". -/
def lastVal : List String → String → Option ℚ
  | [], _ => none
  | L :: rest, k =>
    match lastVal rest k with
    | some v => some v
    | none =>
      match lineEntry L with
      | some kv => if k = kv.1 then some kv.2 else none
      | none => none

def cfg9a : Config :=
  ⟨[("p1", ⟨[("bob", 1)], 5⟩)], none, false, some "gradebook.csv",
   some ⟨some "login", none, none⟩⟩

def cfg9b : Config :=
  ⟨[("p1", ⟨[("bob", 1)], 5⟩)], none, false, some "gradebook.csv",
   some ⟨none, some [("Questions", "Q1 Score")], none⟩⟩

def cfgC : Config :=
  ⟨[("p1", ⟨[("alice@students.edu", 2)], 5⟩)], none, false, none, none⟩

/-- Value of the last entry with a given key in an entry list (the value
that survives folding the list into a dict with `aset`). -/
def lastA {α : Type} : List (String × α) → String → Option α
  | [], _ => none
  | p :: rest, c =>
    match lastA rest c with
    | some v => some v
    | none => if c = p.1 then some p.2 else none

/-- Keys of an entry list. -/
def NodupKeys {α : Type} (d : List (String × α)) : Prop :=
  (d.map (fun p => p.1)).Nodup

/-- A roster row carrying the marks of a validated project: the
presentation score and, for every category, the parsed mark. -/
def markedRow (pc : PConfig) (pm : Marks) (r : Row) : Prop :=
  alookup r "Presentation" = some (Val.num pc.presentation) ∧
  ∀ cat ∈ MARK_CATEGORIES, ∃ w, alookup pm cat = some w ∧
    alookup r cat = some (Val.num w)

/-- The table holds a marked row for student `s`. -/
def QInv (s : String) (pc : PConfig) (pm : Marks) (t : Table) : Prop :=
  ∃ r, alookup t.rows s = some r ∧ markedRow pc pm r

def pmA : Marks :=
  [("Questions", 9), ("Analysis", 7), ("Results", 8), ("Readability", 9),
   ("Writing", 8), ("Reproducibility", 7)]

theorem alookup_aset {α : Type} (d : List (String × α)) (k : String) (v : α)
    (c : String) :
    alookup (aset d k v) c = if c = k then some v else alookup d c := by
  induction d with
  | nil => simp [aset, alookup]
  | cons p rest ih =>
    obtain ⟨k2, v2⟩ := p
    by_cases hp : k2 = k
    · subst hp
      simp only [aset, if_pos rfl]
      by_cases hc : c = k2 <;> simp [alookup, hc]
    · simp only [aset, if_neg hp]
      by_cases hc : c = k2
      · subst hc
        simp [alookup, hp]
      · simp [alookup, hc, ih]

theorem scanLinesAux_err (ls : List String) :
    ∀ acc, isErr (scanLinesAux acc ls) = true ↔ ∃ L ∈ ls, badLine L := by
  induction ls with
  | nil => intro acc; simp [scanLinesAux, isErr]
  | cons L rest ih =>
    intro acc
    match h : matchMarkLine L with
    | none =>
      simp only [scanLinesAux, h, ih]
      constructor
      · intro ⟨L2, hL2, hb⟩; exact ⟨L2, .tail _ hL2, hb⟩
      · intro ⟨L2, hL2, hb⟩
        cases hL2 with
        | head => exact absurd hb (by simp [badLine, h])
        | tail _ hm => exact ⟨L2, hm, hb⟩
    | some (k, t) =>
      match hf : pyFloat t with
      | none =>
        simp only [scanLinesAux, h, hf, isErr]
        simp only [true_iff]
        exact ⟨L, .head _, k, t, h, hf⟩
      | some v =>
        simp only [scanLinesAux, h, hf, ih]
        constructor
        · intro ⟨L2, hL2, hb⟩; exact ⟨L2, .tail _ hL2, hb⟩
        · intro ⟨L2, hL2, hb⟩
          cases hL2 with
          | head => exact absurd hb (by simp [badLine, h, hf])
          | tail _ hm => exact ⟨L2, hm, hb⟩

theorem scanLinesAux_lookup (ls : List String) :
    ∀ acc ms, scanLinesAux acc ls = .ok ms → ∀ k,
      alookup ms k =
        match lastVal ls k with
        | some v => some v
        | none => alookup acc k := by
  induction ls with
  | nil =>
    intro acc ms h k
    simp only [scanLinesAux] at h
    cases h
    simp [lastVal]
  | cons L rest ih =>
    intro acc ms h k
    match hm : matchMarkLine L with
    | none =>
      simp only [scanLinesAux, hm] at h
      have := ih acc ms h k
      simp only [lastVal, lineEntry, hm]
      cases hl : lastVal rest k <;> simp [hl] at this ⊢ <;> exact this
    | some (k1, t) =>
      match hf : pyFloat t with
      | none =>
        simp only [scanLinesAux, hm, hf] at h
        exact absurd h (by simp)
      | some v =>
        simp only [scanLinesAux, hm, hf] at h
        have h2 := ih _ ms h k
        simp only [lastVal, lineEntry, hm, hf]
        cases hl : lastVal rest k <;> simp only [hl] at h2 ⊢
        · rw [h2, alookup_aset]
          by_cases hk : k = k1 <;> simp [hk]
        · exact h2

theorem matchMarkLine_head {L : String} {p : String × String}
    (h : matchMarkLine L = some p) : L.data.head? = some '*' := by
  match hd : L.data with
  | [] => rw [matchMarkLine, hd] at h; exact absurd h (by simp)
  | c :: rest =>
    rw [matchMarkLine, hd] at h
    by_cases hc : c = '*'
    · simp [hc]
    · simp only [hc, if_false] at h
      exact absurd h (by simp)

theorem isErr_wrapSome (e : Except PyErr Marks) :
    isErr (match e with
           | .error x => (.error x : Except PyErr (Option Marks))
           | .ok ms => .ok (some ms)) = isErr e := by
  cases e <;> rfl

/-- C7: for every notebook document, `get_nb_marks` yields the "no marks"
sentinel (`None`) when the document has no cells, or the last cell is not of
the markdown kind, or its text has fewer than two lines, or its first line is
not exactly the header `## Marks`; and when all the header checks pass the
result is exactly the scan of the lines after the first two, so the header
line and the line following it are never scanned for marks. -/
theorem claim7_header_sentinel (nb : Notebook) :
    (nb.cells = [] → getNbMarks nb = .ok none) ∧
    (∀ lc, nb.cells.getLast? = some lc →
      (lc.cell_type ≠ "markdown" → getNbMarks nb = .ok none) ∧
      ((pySplitlines lc.source).length < 2 → getNbMarks nb = .ok none) ∧
      ((pySplitlines lc.source).head? ≠ some "## Marks" →
        getNbMarks nb = .ok none) ∧
      (lc.cell_type = "markdown" → ¬(pySplitlines lc.source).length < 2 →
        (pySplitlines lc.source).head? = some "## Marks" →
        getNbMarks nb =
          (scanLines ((pySplitlines lc.source).drop 2)).map some)) := by
  constructor
  · intro h
    simp [getNbMarks, h]
  · intro lc hlc
    refine ⟨?_, ?_, ?_, ?_⟩
    · intro hct
      simp [getNbMarks, hlc, hct]
    · intro hlen
      by_cases hct : lc.cell_type = "markdown" <;>
        simp [getNbMarks, hlc, hct, hlen]
    · intro hhd
      by_cases hct : lc.cell_type = "markdown" <;>
        by_cases hlen : (pySplitlines lc.source).length < 2 <;>
          simp [getNbMarks, hlc, hct, hlen, hhd]
    · intro hct hlen hhd
      simp only [getNbMarks, hlc, hct, ne_eq, not_true_eq_false, if_false,
        hlen, hhd, not_false_eq_true, if_true]
      cases hsc : scanLines ((pySplitlines lc.source).drop 2) <;>
        simp [hsc, Except.map]

/-- C7 witness: the empty document yields the sentinel. -/
theorem claim7_witness : getNbMarks ⟨[]⟩ = .ok none :=
  (claim7_header_sentinel ⟨[]⟩).1 rfl

/-- C8: `get_proj_marks` returns the first candidate notebook's non-empty
mark set in enumeration order; a candidate parsing to `None` or to an empty
mark set is passed over identically, and when no candidate yields a
non-empty mark set the locator returns the "not found" result (`None`). -/
theorem claim8_first_nonempty :
    (∀ nb rest, (getNbMarks nb = .ok none ∨ getNbMarks nb = .ok (some [])) →
       getProjMarks (nb :: rest) = getProjMarks rest) ∧
    (∀ nb rest ms, getNbMarks nb = .ok (some ms) → ms ≠ [] →
       getProjMarks (nb :: rest) = .ok (some ms)) ∧
    (∀ nbs,
       (∀ nb ∈ nbs, getNbMarks nb = .ok none ∨ getNbMarks nb = .ok (some [])) →
       getProjMarks nbs = .ok none) := by
  have step : ∀ nb rest,
      (getNbMarks nb = .ok none ∨ getNbMarks nb = .ok (some [])) →
      getProjMarks (nb :: rest) = getProjMarks rest := by
    intro nb rest h
    cases h with
    | inl h => simp [getProjMarks, h]
    | inr h => simp [getProjMarks, h]
  refine ⟨step, ?_, ?_⟩
  · intro nb rest ms h hne
    cases ms with
    | nil => exact absurd rfl hne
    | cons p ps => simp [getProjMarks, h]
  · intro nbs h
    induction nbs with
    | nil => rfl
    | cons nb rest ih =>
      rw [step nb rest (h nb (.head _))]
      exact ih (fun x hx => h x (.tail _ hx))

/-- C8 witness: a notebook whose mark block parses to the empty mark set is
passed over exactly like one with no marks. -/
theorem claim8_witness :
    getProjMarks [⟨[⟨"markdown", "## Marks\nx"⟩]⟩] = getProjMarks [] :=
  claim8_first_nonempty.1 ⟨[⟨"markdown", "## Marks\nx"⟩]⟩ []
    (Or.inr (by with_unfolding_all decide))

/-- C1 counterexample: the claim "get_nb_marks never raises on a malformed
individual mark line" is false.  The numeric group of the regex is `[0-9.]+`,
which also matches tokens with several decimal points; on the line
`* Questions: 1.2.3` the line matches and `float` raises `ValueError`. -/
theorem claim1_counterexample :
    getNbMarks ⟨[⟨"markdown", "## Marks\n\n* Questions: 1.2.3"⟩]⟩ =
      .error (.valueError "could not convert string to float: 1.2.3") := by
  with_unfolding_all decide

/-- C1 (amended): `get_nb_marks` raises an exception exactly when the header
checks pass and some scanned line matches the mark pattern while its captured
numeric token (a nonempty run of digits and dots) is not a valid float
(no digit, or more than one dot); lines that fail the pattern are skipped and
never raise. -/
theorem claim1_amended (nb : Notebook) :
    isErr (getNbMarks nb) = true ↔
      ∃ lc, nb.cells.getLast? = some lc ∧ lc.cell_type = "markdown" ∧
        ¬(pySplitlines lc.source).length < 2 ∧
        (pySplitlines lc.source).head? = some "## Marks" ∧
        ∃ L ∈ (pySplitlines lc.source).drop 2, badLine L := by
  cases hlast : nb.cells.getLast? with
  | none => simp [getNbMarks, hlast, isErr]
  | some lc =>
    by_cases hct : lc.cell_type = "markdown"
    · by_cases hlen : (pySplitlines lc.source).length < 2
      · simp [getNbMarks, hlast, hct, hlen, isErr]
      · by_cases hhd : (pySplitlines lc.source).head? = some "## Marks"
        · have herr := scanLinesAux_err ((pySplitlines lc.source).drop 2) []
          simp only [getNbMarks, hlast, hct, ne_eq, not_true_eq_false,
            if_false, hlen, hhd, not_false_eq_true, if_true]
          rw [isErr_wrapSome]
          rw [show scanLines ((pySplitlines lc.source).drop 2) =
            scanLinesAux [] ((pySplitlines lc.source).drop 2) from rfl, herr]
          have hlen2 : 2 ≤ (pySplitlines lc.source).length := Nat.not_lt.mp hlen
          simp [hct, hlen, hlen2, hhd]
        · simp [getNbMarks, hlast, hct, hlen, hhd, isErr]
    · simp [getNbMarks, hlast, hct, isErr]

/-- C1 witness: a concrete document on which the parse raises. -/
theorem claim1_witness :
    isErr (getNbMarks ⟨[⟨"markdown", "## Marks\n\nx\n* Q: .."⟩]⟩) = true :=
  (claim1_amended ⟨[⟨"markdown", "## Marks\n\nx\n* Q: .."⟩]⟩).mpr
    ⟨⟨"markdown", "## Marks\n\nx\n* Q: .."⟩, by with_unfolding_all decide,
      rfl, by with_unfolding_all decide, by with_unfolding_all decide,
      "* Q: ..", by with_unfolding_all decide, by with_unfolding_all decide⟩

/-- C3 counterexample: the claimed line shape makes the leading bullet
marker optional, but the pattern in the source starts with a mandatory `\*`:
the line `Questions: 5` (word, colon, number, no bullet) contributes no
entry, while the same line with a bullet does. -/
theorem claim3_counterexample :
    scanLines ["Questions: 5"] = .ok [] ∧
      scanLines ["* Questions: 5"] = .ok [("Questions", 5)] := by
  constructor <;> with_unfolding_all decide

/-- C3 (amended): the resulting mark set is the fold of the matching lines,
where a line contributes an entry only if it starts with a mandatory bullet
`*` followed by optional whitespace, a word token, optional whitespace, a
colon, optional whitespace and a numeric token of digits and dots that
converts as a float; a repeated category keeps the value of its last matching
occurrence (`alookup` of the result equals `lastVal`, the value of the last
contributing line for that category). -/
theorem claim3_amended :
    (∀ ls ms, scanLines ls = .ok ms → ∀ k, alookup ms k = lastVal ls k) ∧
    (∀ L p, matchMarkLine L = some p → L.data.head? = some '*') := by
  constructor
  · intro ls ms h k
    have h2 := scanLinesAux_lookup ls [] ms h k
    cases hl : lastVal ls k <;> simp only [hl] at h2 ⊢
    · simpa [alookup] using h2
    · exact h2
  · exact fun L p h => matchMarkLine_head h

/-- C3 witness: last occurrence wins on a concrete repeated category. -/
theorem claim3_witness :
    alookup [("Questions", (7 : ℚ))] "Questions" =
      lastVal ["* Questions: 9", "* Questions: 7"] "Questions" :=
  claim3_amended.1 ["* Questions: 9", "* Questions: 7"] [("Questions", 7)]
    (by with_unfolding_all decide) "Questions"

/-- C5: the schema validator of `get_marks` accepts a parsed mark set iff
its key set equals the fixed six-category set as sets (no missing, no extra,
order irrelevant); a violation raises `AssertionError`, which aborts the
whole run (any project-loop error propagates out of `get_marks`), while an
accepted set lets the loop continue with the marks written. -/
theorem claim5_schema_validator :
    (∀ a b : List String, keySetEq a b = true ↔ ∀ x, x ∈ a ↔ x ∈ b) ∧
    (∀ fs allow name pc pm rest t, getProjMarks (fs name) = .ok (some pm) →
      (keySetEq (pm.map (fun p => p.1)) MARK_CATEGORIES = false →
        runProjects fs allow ((name, pc) :: rest) t = .error .assertionError) ∧
      (keySetEq (pm.map (fun p => p.1)) MARK_CATEGORIES = true →
        runProjects fs allow ((name, pc) :: rest) t =
          runProjects fs allow rest (writeMembers t name pc pm))) ∧
    (∀ cfg fs allow roster e,
      runProjects fs allow cfg.projects roster = .error e →
      getMarks cfg fs allow roster = .error e) := by
  refine ⟨?_, ?_, ?_⟩
  · intro a b
    constructor
    · intro h x
      simp only [keySetEq, Bool.and_eq_true, List.all_eq_true] at h
      constructor
      · intro hx
        simpa using h.1 x hx
      · intro hx
        simpa using h.2 x hx
    · intro h
      simp only [keySetEq, Bool.and_eq_true, List.all_eq_true]
      constructor
      · intro x hx
        simpa using (h x).mp hx
      · intro x hx
        simpa using (h x).mpr hx
  · intro fs allow name pc pm rest t h
    constructor <;> intro hk <;> simp [runProjects, h, hk]
  · intro cfg fs allow roster e h
    simp [getMarks, h]

/-- C5 witness: a mark set holding only `Questions` is rejected and the run
aborts with `AssertionError`. -/
theorem claim5_witness :
    runProjects (fun _ => [⟨[⟨"markdown", "## Marks\n\n* Questions: 9"⟩]⟩])
        false [("p", ⟨[], 0⟩)] ⟨[], []⟩ = .error .assertionError :=
  (claim5_schema_validator.2.1
      (fun _ => [⟨[⟨"markdown", "## Marks\n\n* Questions: 9"⟩]⟩])
      false "p" ⟨[], 0⟩ [("Questions", 9)] [] ⟨[], []⟩
      (by with_unfolding_all decide)).1 (by with_unfolding_all decide)

/-- C6: when a project's directory yields no mark block, `get_marks` with
the allow-missing flag false fails with a `RuntimeError` whose message cites
the project name; with the flag true the project loop continues on the
remaining projects with the table unchanged, so no member of the skipped
project receives any mark column. -/
theorem claim6_missing_marks :
    (∀ cfg fs roster name pc rest, cfg.projects = (name, pc) :: rest →
      getProjMarks (fs name) = .ok none →
      getMarks cfg fs false roster =
        .error (.runtimeError ("Missing project marks for " ++ name))) ∧
    (∀ fs name pc rest t, getProjMarks (fs name) = .ok none →
      runProjects fs true ((name, pc) :: rest) t =
        runProjects fs true rest t) := by
  constructor
  · intro cfg fs roster name pc rest hp h
    simp [getMarks, hp, runProjects, h]
  · intro fs name pc rest t h
    simp [runProjects, h]

/-- C6 witness: a project with no notebooks fails fatally, citing its
name, when missing marks are disallowed. -/
theorem claim6_witness :
    getMarks ⟨[("p1", ⟨[], 0⟩)], none, false, none, none⟩ (fun _ => [])
        false ⟨[], []⟩ =
      .error (.runtimeError "Missing project marks for p1") :=
  claim6_missing_marks.1 ⟨[("p1", ⟨[], 0⟩)], none, false, none, none⟩
    (fun _ => []) ⟨[], []⟩ "p1" ⟨[], 0⟩ [] rfl rfl

/-- C2 (amended): the membership validation lives in `check_config` (run
only by the separate `check` action): it raises `ValueError` when a project
references a login not in the roster index, and `ValueError` when a
project's logins overlap the members seen so far.  `get_marks` itself
performs no membership validation (see the counterexample, where an unknown
member silently receives a fresh roster row). -/
theorem claim2_amended :
    (∀ cfg known, checkConfig cfg known = checkConfigAux known [] cfg.projects) ∧
    (∀ (known allM : List String) name pc rest,
      (pc.members.map (fun mp => memberLogin mp.1)).any
          (fun m => !(known.contains m)) = true →
      checkConfigAux known allM ((name, pc) :: rest) =
        .error (.valueError ("Unknown students in " ++ name))) ∧
    (∀ (known allM : List String) name pc rest,
      (pc.members.map (fun mp => memberLogin mp.1)).any
          (fun m => !(known.contains m)) = false →
      (pc.members.map (fun mp => memberLogin mp.1)).any
          (fun m => allM.contains m) = true →
      checkConfigAux known allM ((name, pc) :: rest) =
        .error (.valueError
          ("Students in " ++ name ++ " overlap with other project"))) := by
  refine ⟨fun _ _ => rfl, ?_, ?_⟩
  · intro known allM name pc rest h
    unfold checkConfigAux
    rw [if_pos h]
  · intro known allM name pc rest h1 h2
    unfold checkConfigAux
    rw [if_neg (by rw [h1]; exact Bool.false_ne_true), if_pos h2]

/-- C2 counterexample: the claim says `get_marks` fails fatally before any
marks are written when a project references a student identifier not in the
roster.  It does not: `get_marks` never invokes the membership checks; with
roster `[alice]` and a project whose sole member is the unknown `bob`, the
aggregation succeeds and writes the marks onto a freshly created `bob`
row. -/
theorem claim2_counterexample :
    (getMarks cfgB (fun _ => [nbB]) false rosterB).map
        (fun t => t.rows.map (fun sr => sr.1)) = .ok ["alice", "bob"] ∧
    (getMarks cfgB (fun _ => [nbB]) false rosterB).map
        (fun t => getCell t "bob" "Presentation") = .ok (some (Val.num 5)) := by
  constructor <;> with_unfolding_all decide

/-- C2 witness: `check_config` does reject an unknown member. -/
theorem claim2_witness :
    checkConfigAux ["alice"] [] [("p1", ⟨[("bob", 1)], 5⟩)] =
      .error (.valueError "Unknown students in p1") :=
  claim2_amended.2.1 ["alice"] [] "p1" ⟨[("bob", 1)], 5⟩ []
    (by with_unfolding_all decide)

/-- C9 counterexample: the claim says a missing `merge_col` or `col_map`
makes `export_marks` fail with the failure reported as a configuration
error.  The code only reports `canvas_export_path` that way (an explicit
`RuntimeError` naming the key); a missing `col_map` instead crashes in
`list(out_col_map)` with an unhandled `TypeError` that names no
configuration key. -/
theorem claim9_counterexample :
    exportMarks cfg9a (fun _ => [nbB]) false rosterB ⟨[], []⟩ =
      .error (.typeError "argument of type NoneType is not iterable") := by
  with_unfolding_all decide

/-- C9 (amended): when `merge_col` or `col_map` is absent, `export_marks`
does fail before any merge is attempted, but through an unhandled built-in
exception rather than a reported configuration error: a missing `col_map`
raises `TypeError` (iterating `None`), and a present `col_map` with a
missing `merge_col` raises `KeyError` (indexing the mark table with a label
list containing `None`). -/
theorem claim9_amended (cfg : Config) (fs : String → List Notebook)
    (allow : Bool) (roster canvas : Table)
    (hok : isErr (getMarks cfg fs allow roster) = false)
    (hpath : cfg.canvas_export_path.isSome = true) :
    ((cfg.export_ = none ∨ ∃ ec, cfg.export_ = some ec ∧ ec.col_map = none) →
      exportMarks cfg fs allow roster canvas =
        .error (.typeError "argument of type NoneType is not iterable")) ∧
    (∀ ec cmap, cfg.export_ = some ec → ec.col_map = some cmap →
      ec.merge_col = none →
      exportMarks cfg fs allow roster canvas =
        .error (.keyError "columns not in index")) := by
  match hm : getMarks cfg fs allow roster with
  | .error e => rw [hm] at hok; exact absurd hok (by simp [isErr])
  | .ok mark_df =>
    match hp : cfg.canvas_export_path with
    | none => rw [hp] at hpath; exact absurd hpath (by simp)
    | some p =>
      constructor
      · intro h
        cases h with
        | inl h => simp [exportMarks, hm, hp, h, Option.getD]
        | inr h =>
          obtain ⟨ec, hec, hcm⟩ := h
          simp [exportMarks, hm, hp, hec, hcm]
      · intro ec cmap hec hcm hmc
        simp [exportMarks, hm, hp, hec, hcm, hmc]

/-- C9 witness: a present `col_map` with a missing `merge_col` fails with
`KeyError`, not a reported configuration error. -/
theorem claim9_witness :
    exportMarks cfg9b (fun _ => [nbB]) false rosterB ⟨[], []⟩ =
      .error (.keyError "columns not in index") :=
  (claim9_amended cfg9b (fun _ => [nbB]) false rosterB ⟨[], []⟩
      (by with_unfolding_all decide) rfl).2
    ⟨none, some [("Questions", "Q1 Score")], none⟩ [("Questions", "Q1 Score")]
    rfl rfl rfl

theorem takeWhileNeAt (l : List Char) (h : '@' ∈ l) :
    l.takeWhile (fun c => decide (c ≠ '@')) ≠ l := by
  induction l with
  | nil => cases h
  | cons c rest ih =>
    by_cases hc : c = '@'
    · subst hc
      simp [List.takeWhile]
    · have hpc : decide (c ≠ '@') = true := by simp [hc]
      simp only [List.takeWhile, hpc]
      intro heq
      have h2 : '@' ∈ rest := by
        cases h with
        | head => exact absurd rfl hc
        | tail _ hm => exact hm
      injection heq with h3 h4
      exact ih h2 h4

/-- Splitting a member string at `@` changes it whenever it contains `@`:
the part before the first `@` never equals the whole string. -/
theorem memberLogin_ne_self (m : String) (h : '@' ∈ m.data) :
    memberLogin m ≠ m := by
  intro heq
  exact takeWhileNeAt m.data h (congrArg String.data heq)

/-- C10: `check_config` (via `member_logins`) matches the part of each
member string before any `@` against the roster index, while `get_marks`
writes mark columns keyed by the raw member string.  For any member string
containing `@` these keys differ, and concretely (member
`alice@students.edu`, roster row `alice`): `check_config` passes, yet
`get_marks` leaves the `alice` row without a `Presentation` cell and
creates a new `alice@students.edu` row carrying the marks. -/
theorem claim10_membership_key_mismatch :
    (∀ m : String, '@' ∈ m.data → memberLogin m ≠ m) ∧
    checkConfig cfgC ["alice"] = .ok () ∧
    (getMarks cfgC (fun _ => [nbB]) false rosterB).map
        (fun t => t.rows.map (fun sr => sr.1)) =
      .ok ["alice", "alice@students.edu"] ∧
    (getMarks cfgC (fun _ => [nbB]) false rosterB).map
        (fun t => getCell t "alice" "Presentation") = .ok none ∧
    (getMarks cfgC (fun _ => [nbB]) false rosterB).map
        (fun t => getCell t "alice@students.edu" "Presentation") =
      .ok (some (Val.num 5)) := by
  refine ⟨fun m h => memberLogin_ne_self m h, ?_, ?_, ?_, ?_⟩ <;>
    with_unfolding_all decide

/-- C10 witness: a concrete member string containing an `@`. -/
theorem claim10_witness : memberLogin "a@b" ≠ "a@b" :=
  claim10_membership_key_mismatch.1 "a@b" (by decide)

theorem aset_cons_self {α : Type} (k2 : String) (v2 : α)
    (rest : List (String × α)) (v : α) :
    aset ((k2, v2) :: rest) k2 v = (k2, v) :: rest := by
  simp [aset]

theorem aset_cons_ne {α : Type} {k2 k : String} (h : k2 ≠ k) (v2 : α)
    (rest : List (String × α)) (v : α) :
    aset ((k2, v2) :: rest) k v = (k2, v2) :: aset rest k v := by
  simp [aset, h]

theorem alookup_foldl_aset {α : Type} (e : List (String × α)) :
    ∀ (r0 : List (String × α)) (c : String),
      alookup (e.foldl (fun r p => aset r p.1 p.2) r0) c =
        match lastA e c with
        | some v => some v
        | none => alookup r0 c := by
  induction e with
  | nil => intro r0 c; simp [lastA]
  | cons p rest ih =>
    intro r0 c
    rw [List.foldl_cons, ih, lastA]
    cases hl : lastA rest c with
    | some v => simp
    | none =>
      simp only
      rw [alookup_aset]
      by_cases hc : c = p.1 <;> simp [hc]

theorem lastA_aset_ne {α : Type} (d : List (String × α)) (k : String) (v : α)
    (c : String) (h : c ≠ k) : lastA (aset d k v) c = lastA d c := by
  induction d with
  | nil => simp [aset, lastA, h]
  | cons p rest ih =>
    obtain ⟨k2, v2⟩ := p
    by_cases hk : k2 = k
    · subst hk
      rw [aset_cons_self]
      simp only [lastA]
      cases hl : lastA rest c <;> simp [h]
    · rw [aset_cons_ne hk]
      simp only [lastA, ih]

theorem mem_keys_aset {α : Type} (d : List (String × α)) (k : String) (v : α)
    (x : String) (h : x ∈ (aset d k v).map (fun p => p.1)) :
    x ∈ d.map (fun p => p.1) ∨ x = k := by
  induction d with
  | nil =>
    simp [aset] at h
    exact Or.inr h
  | cons p rest ih =>
    obtain ⟨k2, v2⟩ := p
    by_cases hk : k2 = k
    · subst hk
      rw [aset_cons_self] at h
      simp only [List.map_cons, List.mem_cons] at h
      cases h with
      | inl h => exact Or.inr h
      | inr h => exact Or.inl (by simp [h])
    · rw [aset_cons_ne hk] at h
      simp only [List.map_cons, List.mem_cons] at h
      cases h with
      | inl h => exact Or.inl (by simp [h])
      | inr h =>
        cases ih h with
        | inl h2 => exact Or.inl (by simp [h2])
        | inr h2 => exact Or.inr h2

theorem nodupKeys_aset {α : Type} (d : List (String × α)) (k : String) (v : α)
    (h : NodupKeys d) : NodupKeys (aset d k v) := by
  induction d with
  | nil => simp [NodupKeys, aset]
  | cons p rest ih =>
    obtain ⟨k2, v2⟩ := p
    simp only [NodupKeys, List.map_cons, List.nodup_cons] at h
    by_cases hk : k2 = k
    · subst hk
      unfold NodupKeys
      rw [aset_cons_self]
      simp only [List.map_cons, List.nodup_cons]
      exact h
    · unfold NodupKeys
      rw [aset_cons_ne hk]
      simp only [List.map_cons, List.nodup_cons]
      refine ⟨?_, ih h.2⟩
      intro hmem
      cases mem_keys_aset rest k v k2 hmem with
      | inl h2 => exact h.1 h2
      | inr h2 => exact hk h2

theorem nodupKeys_foldl_aset {α : Type} (e : List (String × α)) :
    ∀ d : List (String × α), NodupKeys d →
      NodupKeys (e.foldl (fun r p => aset r p.1 p.2) d) := by
  induction e with
  | nil => intro d h; exact h
  | cons p rest ih =>
    intro d h
    rw [List.foldl_cons]
    exact ih _ (nodupKeys_aset d p.1 p.2 h)

theorem lastA_none_of_not_mem {α : Type} (d : List (String × α)) (c : String)
    (h : c ∉ d.map (fun p => p.1)) : lastA d c = none := by
  induction d with
  | nil => rfl
  | cons p rest ih =>
    simp only [List.map_cons, List.mem_cons, not_or] at h
    simp only [lastA, ih h.2]
    simp [h.1]

theorem lastA_eq_alookup {α : Type} (d : List (String × α)) (c : String)
    (h : NodupKeys d) : lastA d c = alookup d c := by
  induction d with
  | nil => rfl
  | cons p rest ih =>
    obtain ⟨k2, v2⟩ := p
    simp only [NodupKeys, List.map_cons, List.nodup_cons] at h
    by_cases hc : c = k2
    · subst hc
      have : lastA rest c = none := lastA_none_of_not_mem rest c h.1
      simp [lastA, alookup, this]
    · simp only [lastA, alookup, if_neg hc, ih h.2]
      cases hl : alookup rest c <;> simp [hc]

theorem lastA_map_num (pm : Marks) (c : String) :
    lastA (pm.map (fun p => (p.1, Val.num p.2))) c =
      (lastA pm c).map Val.num := by
  induction pm with
  | nil => rfl
  | cons p rest ih =>
    simp only [List.map_cons, lastA, ih]
    cases hl : lastA rest c with
    | some v => simp
    | none =>
      simp only [Option.map_none']
      by_cases hc : c = p.1 <;> simp [hc]

theorem alookup_some_of_mem_keys {α : Type} (d : List (String × α))
    (c : String) (h : c ∈ d.map (fun p => p.1)) :
    ∃ v, alookup d c = some v := by
  induction d with
  | nil => simp at h
  | cons p rest ih =>
    by_cases hc : c = p.1
    · exact ⟨p.2, by simp [alookup, hc]⟩
    · simp only [List.map_cons, List.mem_cons, hc, false_or] at h
      obtain ⟨v, hv⟩ := ih h
      exact ⟨v, by simp [alookup, hc, hv]⟩

theorem nodupKeys_scanLinesAux (ls : List String) :
    ∀ acc ms, NodupKeys acc → scanLinesAux acc ls = .ok ms → NodupKeys ms := by
  induction ls with
  | nil =>
    intro acc ms h heq
    simp only [scanLinesAux] at heq
    cases heq
    exact h
  | cons L rest ih =>
    intro acc ms h heq
    match hm : matchMarkLine L with
    | none =>
      simp only [scanLinesAux, hm] at heq
      exact ih acc ms h heq
    | some (k, t) =>
      match hf : pyFloat t with
      | none =>
        simp only [scanLinesAux, hm, hf] at heq
        exact absurd heq (by simp)
      | some v =>
        simp only [scanLinesAux, hm, hf] at heq
        exact ih _ ms (nodupKeys_aset acc k v h) heq


theorem nodupKeys_getNbMarks (nb : Notebook) (ms : Marks)
    (h : getNbMarks nb = .ok (some ms)) : NodupKeys ms := by
  unfold getNbMarks at h
  split at h
  · exact absurd h (by simp)
  · split at h
    · exact absurd h (by simp)
    · dsimp only at h
      split at h
      · exact absurd h (by simp)
      · split at h
        · exact absurd h (by simp)
        · split at h
          · exact absurd h (by simp)
          next ms2 heq =>
            simp only [Except.ok.injEq, Option.some.injEq] at h
            subst h
            exact nodupKeys_scanLinesAux _ [] ms2 (by simp [NodupKeys]) heq

theorem nodupKeys_getProjMarks (nbs : List Notebook) (pm : Marks)
    (h : getProjMarks nbs = .ok (some pm)) : NodupKeys pm := by
  induction nbs with
  | nil =>
    simp only [getProjMarks] at h
    exact absurd h (by simp)
  | cons nb rest ih =>
    unfold getProjMarks at h
    split at h
    · exact absurd h (by simp)
    · exact ih h
    next ms hm =>
      split at h
      · exact ih h
      · simp only [Except.ok.injEq, Option.some.injEq] at h
        subst h
        exact nodupKeys_getNbMarks nb _ hm

theorem updRow_self (m : String) (e : Row) (r : Row) :
    updRow m e (m, r) = (m, e.foldl (fun r2 p => aset r2 p.1 p.2) r) := by
  simp [updRow]

theorem updRow_ne {k m : String} (h : k ≠ m) (e : Row) (r : Row) :
    updRow m e (k, r) = (k, r) := by
  simp [updRow, h]

theorem alookup_map_updRow_ne (rows : List (String × Row)) (m : String)
    (e : Row) (s : String) (h : s ≠ m) :
    alookup (rows.map (updRow m e)) s = alookup rows s := by
  induction rows with
  | nil => rfl
  | cons p rest ih =>
    obtain ⟨k, r⟩ := p
    by_cases hk : k = m
    · subst hk
      rw [List.map_cons, updRow_self, alookup, alookup, if_neg h, if_neg h, ih]
    · rw [List.map_cons, updRow_ne hk]
      by_cases hs : s = k
      · rw [alookup, alookup, if_pos hs, if_pos hs]
      · rw [alookup, alookup, if_neg hs, if_neg hs, ih]

theorem alookup_map_updRow_self (rows : List (String × Row)) (m : String)
    (e : Row) :
    alookup (rows.map (updRow m e)) m =
      (alookup rows m).map (fun r => e.foldl (fun r2 p => aset r2 p.1 p.2) r) := by
  induction rows with
  | nil => rfl
  | cons p rest ih =>
    obtain ⟨k, r⟩ := p
    by_cases hk : k = m
    · subst hk
      rw [List.map_cons, updRow_self, alookup, alookup, if_pos rfl, if_pos rfl]
      rfl
    · have hs : m ≠ k := fun h2 => hk h2.symm
      rw [List.map_cons, updRow_ne hk, alookup, alookup, if_neg hs, if_neg hs,
        ih]

theorem alookup_append_one_ne {α : Type} (rows : List (String × α))
    (m s : String) (x : α) (h : s ≠ m) :
    alookup (rows ++ [(m, x)]) s = alookup rows s := by
  induction rows with
  | nil => simp [alookup, h]
  | cons p rest ih =>
    by_cases hs : s = p.1
    · rw [List.cons_append, alookup, alookup, if_pos hs, if_pos hs]
    · rw [List.cons_append, alookup, alookup, if_neg hs, if_neg hs, ih]

theorem alookup_append_one_self {α : Type} (rows : List (String × α))
    (m : String) (x : α) (h : alookup rows m = none) :
    alookup (rows ++ [(m, x)]) m = some x := by
  induction rows with
  | nil => simp [alookup]
  | cons p rest ih =>
    by_cases hs : m = p.1
    · rw [alookup, if_pos hs] at h
      exact absurd h (by simp)
    · rw [alookup, if_neg hs] at h
      rw [List.cons_append, alookup, if_neg hs, ih h]

theorem alookup_none_of_any_false {α : Type} (rows : List (String × α))
    (m : String) (h : rows.any (fun sr => sr.1 = m) = false) :
    alookup rows m = none := by
  induction rows with
  | nil => rfl
  | cons p rest ih =>
    simp only [List.any_cons, Bool.or_eq_false_iff] at h
    have hp : ¬(m = p.1) := by
      intro h2
      have h3 := h.1
      simp [h2] at h3
    rw [alookup, if_neg hp]
    exact ih h.2

theorem alookup_some_of_any_true {α : Type} (rows : List (String × α))
    (m : String) (h : rows.any (fun sr => sr.1 = m) = true) :
    ∃ r, alookup rows m = some r := by
  induction rows with
  | nil => simp at h
  | cons p rest ih =>
    by_cases hp : m = p.1
    · exact ⟨p.2, by rw [alookup, if_pos hp]⟩
    · simp only [List.any_cons, Bool.or_eq_true] at h
      cases h with
      | inl h2 =>
        have h3 : p.1 = m := by simpa using h2
        exact absurd h3.symm hp
      | inr h2 =>
        obtain ⟨r, hr⟩ := ih h2
        exact ⟨r, by rw [alookup, if_neg hp, hr]⟩

theorem setRow_rows_pos (t : Table) (m : String) (e : Row)
    (ha : t.rows.any (fun sr => sr.1 = m) = true) :
    (setRow t m e).rows = t.rows.map (updRow m e) := by
  simp [setRow, ha]

theorem setRow_rows_neg (t : Table) (m : String) (e : Row)
    (ha : t.rows.any (fun sr => sr.1 = m) = false) :
    (setRow t m e).rows =
      t.rows ++ [(m, e.foldl (fun r p => aset r p.1 p.2) [])] := by
  simp [setRow, ha]

theorem alookup_setRow_ne (t : Table) (m : String) (e : Row) (s : String)
    (h : s ≠ m) :
    alookup (setRow t m e).rows s = alookup t.rows s := by
  by_cases ha : t.rows.any (fun sr => sr.1 = m) = true
  · rw [setRow_rows_pos t m e ha]
    exact alookup_map_updRow_ne t.rows m e s h
  · rw [setRow_rows_neg t m e (Bool.of_not_eq_true ha)]
    exact alookup_append_one_ne t.rows m s _ h

theorem alookup_setRow_self (t : Table) (m : String) (e : Row) :
    ∃ r0, alookup (setRow t m e).rows m =
      some (e.foldl (fun r p => aset r p.1 p.2) r0) := by
  by_cases ha : t.rows.any (fun sr => sr.1 = m) = true
  · obtain ⟨r0, hr⟩ := alookup_some_of_any_true t.rows m ha
    refine ⟨r0, ?_⟩
    rw [setRow_rows_pos t m e ha, alookup_map_updRow_self, hr]
    rfl
  · refine ⟨[], ?_⟩
    have hn := alookup_none_of_any_false t.rows m (Bool.of_not_eq_true ha)
    rw [setRow_rows_neg t m e (Bool.of_not_eq_true ha)]
    exact alookup_append_one_self t.rows m _ hn

theorem keySetEq_mem_right {a b : List String}
    (h : keySetEq a b = true) {x : String} (hx : x ∈ b) : x ∈ a := by
  simp only [keySetEq, Bool.and_eq_true, List.all_eq_true] at h
  simpa using h.2 x hx

theorem keySetEq_mem_left {a b : List String}
    (h : keySetEq a b = true) {x : String} (hx : x ∈ a) : x ∈ b := by
  simp only [keySetEq, Bool.and_eq_true, List.all_eq_true] at h
  simpa using h.1 x hx

theorem keys_map_num (pm : Marks) :
    (pm.map (fun p => (p.1, Val.num p.2))).map (fun p => p.1) =
      pm.map (fun p => p.1) := by
  induction pm with
  | nil => rfl
  | cons p rest ih => simp [ih]

theorem cats_ne_contribution : ∀ cat ∈ MARK_CATEGORIES, cat ≠ "Contribution" := by
  decide

theorem nodupKeys_projEntries (name : String) (pres : ℚ) (pm : Marks) :
    NodupKeys (projEntries name pres pm) :=
  nodupKeys_foldl_aset _ _ (by simp [NodupKeys])

theorem lastA_entry (name : String) (pc : PConfig) (pm : Marks) (contrib : ℚ)
    (hnodup : NodupKeys pm)
    (hkeys : keySetEq (pm.map (fun p => p.1)) MARK_CATEGORIES = true) :
    lastA (aset (projEntries name pc.presentation pm) "Contribution"
        (Val.num contrib)) "Presentation" =
      some (Val.num pc.presentation) ∧
    ∀ cat ∈ MARK_CATEGORIES, ∃ w, alookup pm cat = some w ∧
      lastA (aset (projEntries name pc.presentation pm) "Contribution"
          (Val.num contrib)) cat = some (Val.num w) := by
  have hM : NodupKeys (projEntries name pc.presentation pm) :=
    nodupKeys_projEntries name pc.presentation pm
  constructor
  · rw [lastA_aset_ne _ _ _ _ (by decide), lastA_eq_alookup _ _ hM,
      projEntries, alookup_foldl_aset, lastA_map_num]
    have hnp : "Presentation" ∉ pm.map (fun p => p.1) := by
      intro hmem
      exact absurd (keySetEq_mem_left hkeys hmem) (by decide)
    rw [lastA_none_of_not_mem pm _ hnp]
    show alookup [("Project name", Val.str name),
      ("Presentation", Val.num pc.presentation)] "Presentation" =
        some (Val.num pc.presentation)
    rw [alookup, if_neg (by decide), alookup, if_pos rfl]
  · intro cat hcat
    obtain ⟨w, hw⟩ :=
      alookup_some_of_mem_keys pm cat (keySetEq_mem_right hkeys hcat)
    refine ⟨w, hw, ?_⟩
    have hcc : cat ≠ "Contribution" := cats_ne_contribution cat hcat
    rw [lastA_aset_ne _ _ _ _ hcc, lastA_eq_alookup _ _ hM,
      projEntries, alookup_foldl_aset, lastA_map_num,
      lastA_eq_alookup pm cat hnodup, hw]
    rfl

theorem marked_after_setRow (t : Table) (s name : String) (pc : PConfig)
    (pm : Marks) (contrib : ℚ) (hnodup : NodupKeys pm)
    (hkeys : keySetEq (pm.map (fun p => p.1)) MARK_CATEGORIES = true) :
    QInv s pc pm (setRow t s (aset (projEntries name pc.presentation pm)
      "Contribution" (Val.num contrib))) := by
  obtain ⟨r0, hr⟩ := alookup_setRow_self t s
    (aset (projEntries name pc.presentation pm) "Contribution"
      (Val.num contrib))
  have hent := lastA_entry name pc pm contrib hnodup hkeys
  refine ⟨_, hr, ?_, ?_⟩
  · rw [alookup_foldl_aset, hent.1]
  · intro cat hcat
    obtain ⟨w, hw, hl⟩ := hent.2 cat hcat
    exact ⟨w, hw, by rw [alookup_foldl_aset, hl]⟩

theorem QInv_setRow_ne (t : Table) (m : String) (e : Row) (s : String)
    (pc : PConfig) (pm : Marks) (h : s ≠ m) (hq : QInv s pc pm t) :
    QInv s pc pm (setRow t m e) := by
  obtain ⟨r, hr, hmk⟩ := hq
  exact ⟨r, by rw [alookup_setRow_ne t m e s h]; exact hr, hmk⟩

theorem QInv_foldWrite (s name : String) (pc : PConfig) (pm : Marks)
    (hnodup : NodupKeys pm)
    (hkeys : keySetEq (pm.map (fun p => p.1)) MARK_CATEGORIES = true)
    (ms : List (String × ℚ)) :
    ∀ t, QInv s pc pm t →
      QInv s pc pm (ms.foldl (fun t2 mp => setRow t2 mp.1
        (aset (projEntries name pc.presentation pm) "Contribution"
          (Val.num mp.2))) t) := by
  induction ms with
  | nil => intro t h; exact h
  | cons mp rest ih =>
    intro t h
    rw [List.foldl_cons]
    apply ih
    by_cases hms : mp.1 = s
    · rw [hms]
      exact marked_after_setRow t s name pc pm mp.2 hnodup hkeys
    · exact QInv_setRow_ne t mp.1 _ s pc pm (fun h2 => hms h2.symm) h

theorem QInv_foldWrite_est (s name : String) (pc : PConfig) (pm : Marks)
    (hnodup : NodupKeys pm)
    (hkeys : keySetEq (pm.map (fun p => p.1)) MARK_CATEGORIES = true)
    (ms : List (String × ℚ)) :
    (∃ mp ∈ ms, mp.1 = s) → ∀ t,
      QInv s pc pm (ms.foldl (fun t2 mp => setRow t2 mp.1
        (aset (projEntries name pc.presentation pm) "Contribution"
          (Val.num mp.2))) t) := by
  induction ms with
  | nil =>
    intro hex t
    obtain ⟨mp, hmem, _⟩ := hex
    cases hmem
  | cons mp rest ih =>
    intro hex t
    rw [List.foldl_cons]
    by_cases hms : mp.1 = s
    · apply QInv_foldWrite s name pc pm hnodup hkeys rest
      rw [hms]
      exact marked_after_setRow t s name pc pm mp.2 hnodup hkeys
    · obtain ⟨mp2, hmem2, hs2⟩ := hex
      cases hmem2 with
      | head => exact absurd hs2 hms
      | tail _ hm2 => exact ih ⟨mp2, hm2, hs2⟩ _

theorem QInv_writeMembers (s name : String) (pc : PConfig) (pm : Marks)
    (hnodup : NodupKeys pm)
    (hkeys : keySetEq (pm.map (fun p => p.1)) MARK_CATEGORIES = true)
    (t : Table) (h : QInv s pc pm t) :
    QInv s pc pm (writeMembers t name pc pm) :=
  QInv_foldWrite s name pc pm hnodup hkeys pc.members t h

theorem QInv_writeMembers_est (s name : String) (pc : PConfig) (pm : Marks)
    (hnodup : NodupKeys pm)
    (hkeys : keySetEq (pm.map (fun p => p.1)) MARK_CATEGORIES = true)
    (t : Table) (h : ∃ mp ∈ pc.members, mp.1 = s) :
    QInv s pc pm (writeMembers t name pc pm) :=
  QInv_foldWrite_est s name pc pm hnodup hkeys pc.members h t

theorem writeMembers_lookup_ne (name2 : String) (pc2 : PConfig) (pm2 : Marks)
    (s : String) (h : ∀ mp ∈ pc2.members, mp.1 ≠ s) (t : Table) :
    alookup (writeMembers t name2 pc2 pm2).rows s = alookup t.rows s := by
  suffices haux : ∀ ms : List (String × ℚ), (∀ mp ∈ ms, mp.1 ≠ s) → ∀ t2 : Table,
      alookup ((ms.foldl (fun t3 mp => setRow t3 mp.1
        (aset (projEntries name2 pc2.presentation pm2) "Contribution"
          (Val.num mp.2))) t2)).rows s = alookup t2.rows s by
    exact haux pc2.members h t
  intro ms
  induction ms with
  | nil => intro _ t2; rfl
  | cons mp rest ih =>
    intro hs t2
    rw [List.foldl_cons, ih (fun x hx => hs x (.tail _ hx)),
      alookup_setRow_ne _ _ _ _ (fun h2 => hs mp (.head _) h2.symm)]

theorem runProjects_lookup_ne (fs : String → List Notebook) (allow : Bool)
    (s : String) :
    ∀ (ps : List (String × PConfig)) (t t' : Table),
      runProjects fs allow ps t = .ok t' →
      (∀ np ∈ ps, ∀ mp ∈ np.2.members, mp.1 ≠ s) →
      alookup t'.rows s = alookup t.rows s := by
  intro ps
  induction ps with
  | nil =>
    intro t t' h _
    simp only [runProjects] at h
    cases h
    rfl
  | cons np rest ih =>
    obtain ⟨name2, pc2⟩ := np
    intro t t' h hs
    cases hm : getProjMarks (fs name2) with
    | error e =>
      simp only [runProjects, hm] at h
      exact absurd h (by simp)
    | ok o =>
      cases o with
      | none =>
        simp only [runProjects, hm] at h
        split at h
        · exact ih t t' h (fun np hnp mp hmp => hs np (.tail _ hnp) mp hmp)
        · exact absurd h (by simp)
      | some pm2 =>
        simp only [runProjects, hm] at h
        split at h
        · have h2 := ih _ t' h (fun np hnp mp hmp => hs np (.tail _ hnp) mp hmp)
          rw [h2, writeMembers_lookup_ne name2 pc2 pm2 s
            (fun mp hmp => hs (name2, pc2) (.head _) mp hmp) t]
        · exact absurd h (by simp)

theorem runProjects_keys (fs : String → List Notebook) (allow : Bool)
    (name : String) (pm : Marks)
    (hpm : getProjMarks (fs name) = .ok (some pm)) :
    ∀ (ps : List (String × PConfig)) (t t' : Table) (pc : PConfig),
      runProjects fs allow ps t = .ok t' → (name, pc) ∈ ps →
      keySetEq (pm.map (fun p => p.1)) MARK_CATEGORIES = true := by
  intro ps
  induction ps with
  | nil => intro t t' pc _ hmem; cases hmem
  | cons np rest ih =>
    obtain ⟨name2, pc2⟩ := np
    intro t t' pc h hmem
    by_cases hn : name2 = name
    · subst hn
      simp only [runProjects, hpm] at h
      split at h
      next hks => exact hks
      next hks => exact absurd h (by simp)
    · have hmem2 : (name, pc) ∈ rest := by
        cases hmem with
        | head => exact absurd rfl hn
        | tail _ h2 => exact h2
      cases hm2 : getProjMarks (fs name2) with
      | error e =>
        simp only [runProjects, hm2] at h
        exact absurd h (by simp)
      | ok o =>
        cases o with
        | none =>
          simp only [runProjects, hm2] at h
          split at h
          · exact ih t t' pc h hmem2
          · exact absurd h (by simp)
        | some pm2 =>
          simp only [runProjects, hm2] at h
          split at h
          · exact ih _ t' pc h hmem2
          · exact absurd h (by simp)

theorem runProjects_QInv_pres (fs : String → List Notebook) (allow : Bool)
    (s name : String) (pc : PConfig) (pm : Marks)
    (hpm : getProjMarks (fs name) = .ok (some pm))
    (hnodup : NodupKeys pm)
    (hkeys : keySetEq (pm.map (fun p => p.1)) MARK_CATEGORIES = true) :
    ∀ (ps : List (String × PConfig)) (t t' : Table),
      runProjects fs allow ps t = .ok t' →
      (∀ np ∈ ps, ∀ mp ∈ np.2.members, mp.1 = s → np = (name, pc)) →
      QInv s pc pm t → QInv s pc pm t' := by
  intro ps
  induction ps with
  | nil =>
    intro t t' h _ hq
    simp only [runProjects] at h
    cases h
    exact hq
  | cons np rest ih =>
    obtain ⟨name2, pc2⟩ := np
    intro t t' h honce hq
    cases hm : getProjMarks (fs name2) with
    | error e =>
      simp only [runProjects, hm] at h
      exact absurd h (by simp)
    | ok o =>
      cases o with
      | none =>
        simp only [runProjects, hm] at h
        split at h
        · exact ih t t' h (fun np hnp mp hmp => honce np (.tail _ hnp) mp hmp)
            hq
        · exact absurd h (by simp)
      | some pm2 =>
        simp only [runProjects, hm] at h
        split at h
        · refine ih _ t' h
            (fun np hnp mp hmp => honce np (.tail _ hnp) mp hmp) ?_
          by_cases hsm : ∀ mp ∈ pc2.members, mp.1 ≠ s
          · obtain ⟨r, hr, hmk⟩ := hq
            refine ⟨r, ?_, hmk⟩
            rw [writeMembers_lookup_ne name2 pc2 pm2 s hsm t]
            exact hr
          · push_neg at hsm
            obtain ⟨mp, hmp, hms⟩ := hsm
            have hnp := honce (name2, pc2) (.head _) mp hmp hms
            have hn2 : name2 = name := congrArg Prod.fst hnp
            have hp2 : pc2 = pc := congrArg Prod.snd hnp
            subst hn2
            subst hp2
            rw [hpm] at hm
            simp only [Except.ok.injEq, Option.some.injEq] at hm
            subst hm
            exact QInv_writeMembers_est s name2 pc2 pm hnodup hkeys t
              ⟨mp, hmp, hms⟩
        · exact absurd h (by simp)

theorem runProjects_QInv_est (fs : String → List Notebook) (allow : Bool)
    (s name : String) (pc : PConfig) (pm : Marks) (contrib : ℚ)
    (hpm : getProjMarks (fs name) = .ok (some pm))
    (hnodup : NodupKeys pm)
    (hkeys : keySetEq (pm.map (fun p => p.1)) MARK_CATEGORIES = true)
    (hc : (s, contrib) ∈ pc.members) :
    ∀ (ps : List (String × PConfig)) (t t' : Table),
      runProjects fs allow ps t = .ok t' →
      (∀ np ∈ ps, ∀ mp ∈ np.2.members, mp.1 = s → np = (name, pc)) →
      (name, pc) ∈ ps → QInv s pc pm t' := by
  intro ps
  induction ps with
  | nil => intro t t' _ _ hmem; cases hmem
  | cons np rest ih =>
    intro t t' h honce hmem
    by_cases hnp : np = (name, pc)
    · subst hnp
      simp only [runProjects, hpm] at h
      rw [if_pos hkeys] at h
      exact runProjects_QInv_pres fs allow s name pc pm hpm hnodup hkeys
        rest _ t' h (fun np2 hnp2 mp hmp => honce np2 (.tail _ hnp2) mp hmp)
        (QInv_writeMembers_est s name pc pm hnodup hkeys t
          ⟨(s, contrib), hc, rfl⟩)
    · have hmem2 : (name, pc) ∈ rest := by
        cases hmem with
        | head => exact absurd rfl hnp
        | tail _ h2 => exact h2
      obtain ⟨name2, pc2⟩ := np
      cases hm : getProjMarks (fs name2) with
      | error e =>
        simp only [runProjects, hm] at h
        exact absurd h (by simp)
      | ok o =>
        cases o with
        | none =>
          simp only [runProjects, hm] at h
          split at h
          · exact ih t t' h
              (fun np2 hnp2 mp hmp => honce np2 (.tail _ hnp2) mp hmp) hmem2
          · exact absurd h (by simp)
        | some pm2 =>
          simp only [runProjects, hm] at h
          split at h
          · exact ih _ t' h
              (fun np2 hnp2 mp hmp => honce np2 (.tail _ hnp2) mp hmp) hmem2
          · exact absurd h (by simp)

theorem cats_ne_presentation :
    ∀ cat ∈ MARK_CATEGORIES, cat ≠ "Presentation" := by
  decide

theorem map_congr_mem {α β : Type} (l : List α) (f g : α → β)
    (h : ∀ a ∈ l, f a = g a) : l.map f = l.map g := by
  induction l with
  | nil => rfl
  | cons a rest ih =>
    simp only [List.map_cons, h a (.head _),
      ih (fun x hx => h x (.tail _ hx))]

theorem collectVals_none (r : Row) :
    ∀ cs, (∀ c ∈ cs, alookup r c = none) → collectVals r cs = .ok [] := by
  intro cs
  induction cs with
  | nil => intro _; rfl
  | cons c rest ih =>
    intro h
    have hc := h c (.head _)
    simp only [collectVals, hc]
    exact ih (fun x hx => h x (.tail _ hx))

theorem collectVals_map (r : Row) (f : String → ℚ) :
    ∀ cs, (∀ c ∈ cs, alookup r c = some (Val.num (f c))) →
      collectVals r cs = .ok (cs.map f) := by
  intro cs
  induction cs with
  | nil => intro _; rfl
  | cons c rest ih =>
    intro h
    have hc := h c (.head _)
    simp only [collectVals, hc, ih (fun x hx => h x (.tail _ hx))]
    simp

theorem alookup_rerase (r : Row) (k : String) :
    alookup (rerase r k) k = none := by
  induction r with
  | nil => rfl
  | cons p rest ih =>
    by_cases hp : p.1 = k
    · rw [show rerase (p :: rest) k = rerase rest k from by
        simp [rerase, List.filter_cons, hp]]
      exact ih
    · rw [show rerase (p :: rest) k = p :: rerase rest k from by
        simp [rerase, List.filter_cons, hp]]
      rw [alookup, if_neg (fun h2 => hp h2.symm)]
      exact ih

theorem finalizeRows_lookup (projCol : String) (roundF : Bool) :
    ∀ (rows rs : List (String × Row)),
      finalizeRows projCol roundF rows = .ok rs → ∀ s,
      (alookup rows s = none → alookup rs s = none) ∧
      (∀ r, alookup rows s = some r → ∃ vs,
        collectVals r sevenCols = .ok vs ∧
        alookup rs s = some (match meanOpt vs with
          | some q => aset r projCol (Val.num (if roundF then pyRound q else q))
          | none => rerase r projCol)) := by
  intro rows
  induction rows with
  | nil =>
    intro rs h s
    simp only [finalizeRows] at h
    cases h
    exact ⟨fun _ => rfl, fun r hr => absurd hr (by simp [alookup])⟩
  | cons p rest ih =>
    obtain ⟨s2, r2⟩ := p
    intro rs h s
    cases hcv : collectVals r2 sevenCols with
    | error e =>
      simp only [finalizeRows, hcv] at h
      exact absurd h (by simp)
    | ok vs2 =>
      cases hfr : finalizeRows projCol roundF rest with
      | error e =>
        simp only [finalizeRows, hcv, hfr] at h
        exact absurd h (by simp)
      | ok rs2 =>
        simp only [finalizeRows, hcv, hfr, Except.ok.injEq] at h
        subst h
        constructor
        · intro hnone
          by_cases hs : s = s2
          · rw [alookup, if_pos hs] at hnone
            exact absurd hnone (by simp)
          · rw [alookup, if_neg hs] at hnone
            rw [alookup, if_neg hs]
            exact (ih rs2 hfr s).1 hnone
        · intro r hr
          by_cases hs : s = s2
          · rw [alookup, if_pos hs] at hr
            simp only [Option.some.injEq] at hr
            subst hr
            refine ⟨vs2, hcv, ?_⟩
            rw [alookup, if_pos hs]
          · rw [alookup, if_neg hs] at hr
            obtain ⟨vs, hvs, hlk⟩ := (ih rs2 hfr s).2 r hr
            refine ⟨vs, hvs, ?_⟩
            rw [alookup, if_neg hs]
            exact hlk

/-- C4: after aggregation with rounding disabled, every student assigned to
a project whose marks were located and validated has a final-score cell
equal to the arithmetic mean of the seven numeric fields (presentation plus
the six category scores), while a roster row belonging to no project keeps
no final-score cell at all (pandas `NaN`, modelled as absence) rather than
zero.  The single-membership hypothesis is the spec's own data-model
invariant (a student belongs to at most one project), and the clean-roster
hypothesis says the incoming roster carries none of the seven mark
columns. -/
theorem claim4_final_score (cfg : Config) (fs : String → List Notebook)
    (allow : Bool) (roster : Table)
    (hne : isErr (getMarks cfg fs allow roster) = false)
    (hround : cfg.round_final = false) :
    (∀ s r, (∀ np ∈ cfg.projects, ∀ mp ∈ np.2.members, mp.1 ≠ s) →
      alookup roster.rows s = some r →
      (∀ c ∈ sevenCols, alookup r c = none) →
      (getMarks cfg fs allow roster).map
        (fun t => getCell t s (cfg.marks_col.getD "Project %")) = .ok none) ∧
    (∀ name pc pm s contrib, (name, pc) ∈ cfg.projects →
      (s, contrib) ∈ pc.members →
      (∀ np ∈ cfg.projects, ∀ mp ∈ np.2.members, mp.1 = s → np = (name, pc)) →
      getProjMarks (fs name) = .ok (some pm) →
      (getMarks cfg fs allow roster).map
        (fun t => getCell t s (cfg.marks_col.getD "Project %")) =
        .ok (some (Val.num ((pc.presentation +
          (MARK_CATEGORIES.map (fun cat => (alookup pm cat).getD 0)).sum)
            / 7)))) := by
  cases hrp : runProjects fs allow cfg.projects roster with
  | error e =>
    rw [show getMarks cfg fs allow roster = .error e from by
      simp only [getMarks, hrp]] at hne
    exact absurd hne (by simp [isErr])
  | ok t1 =>
    have hgm : getMarks cfg fs allow roster =
        addFinal (cfg.marks_col.getD "Project %") false t1 := by
      simp only [getMarks, hrp, hround]
    rw [hgm] at hne
    by_cases hall : sevenCols.all (fun c => t1.cols.contains c) = true
    case neg =>
      rw [show addFinal (cfg.marks_col.getD "Project %") false t1 =
          .error (.keyError "columns not in index") from by
        rw [addFinal, if_neg hall]] at hne
      exact absurd hne (by simp [isErr])
    case pos =>
      cases hfin : finalizeRows (cfg.marks_col.getD "Project %") false t1.rows
        with
      | error e =>
        rw [show addFinal (cfg.marks_col.getD "Project %") false t1 =
            .error e from by rw [addFinal, if_pos hall, hfin]] at hne
        exact absurd hne (by simp [isErr])
      | ok rs =>
        have haf : addFinal (cfg.marks_col.getD "Project %") false t1 =
            .ok ⟨addCols t1.cols [cfg.marks_col.getD "Project %"], rs⟩ := by
          rw [addFinal, if_pos hall, hfin]
        constructor
        · intro s r hnm hrow hclean
          rw [hgm, haf]
          simp only [Except.map]
          have hl1 : alookup t1.rows s = some r := by
            rw [runProjects_lookup_ne fs allow s cfg.projects roster t1 hrp
              hnm]
            exact hrow
          obtain ⟨vs, hvs, hlk⟩ :=
            ((finalizeRows_lookup (cfg.marks_col.getD "Project %") false
              t1.rows rs hfin s).2) r hl1
          rw [collectVals_none r sevenCols hclean] at hvs
          simp only [Except.ok.injEq] at hvs
          subst hvs
          have hlk2 : alookup rs s =
              some (rerase r (cfg.marks_col.getD "Project %")) := hlk
          simp only [Except.ok.injEq]
          show getCell ⟨addCols t1.cols [cfg.marks_col.getD "Project %"], rs⟩
            s (cfg.marks_col.getD "Project %") = none
          rw [getCell]
          simp only
          rw [hlk2]
          exact alookup_rerase r _
        · intro name pc pm s contrib hmem hcmem honce hpm
          rw [hgm, haf]
          simp only [Except.map]
          have hkeys := runProjects_keys fs allow name pm hpm cfg.projects
            roster t1 pc hrp hmem
          have hnodup := nodupKeys_getProjMarks (fs name) pm hpm
          obtain ⟨r, hr, hpres, hcats⟩ :=
            runProjects_QInv_est fs allow s name pc pm contrib hpm hnodup
              hkeys hcmem cfg.projects roster t1 hrp honce hmem
          obtain ⟨vs, hvs, hlk⟩ :=
            ((finalizeRows_lookup (cfg.marks_col.getD "Project %") false
              t1.rows rs hfin s).2) r hr
          have hvals : ∀ c ∈ sevenCols, alookup r c = some (Val.num
              (if c = "Presentation" then pc.presentation
               else (alookup pm c).getD 0)) := by
            intro c hc
            cases hc with
            | head =>
              rw [hpres]
              simp
            | tail _ hc2 =>
              obtain ⟨w, hw, hrw⟩ := hcats c hc2
              rw [hrw]
              have hcp : c ≠ "Presentation" := cats_ne_presentation c hc2
              simp [hcp, hw]
          rw [collectVals_map r _ sevenCols hvals] at hvs
          simp only [Except.ok.injEq] at hvs
          subst hvs
          have hmean : meanOpt (sevenCols.map
              (fun c => if c = "Presentation" then pc.presentation
               else (alookup pm c).getD 0)) =
              some ((pc.presentation +
                (MARK_CATEGORIES.map
                  (fun cat => (alookup pm cat).getD 0)).sum) / 7) := by
            rw [meanOpt, if_neg (by simp [sevenCols, MARK_CATEGORIES])]
            have hsum : (sevenCols.map
                (fun c => if c = "Presentation" then pc.presentation
                 else (alookup pm c).getD 0)).sum =
                pc.presentation + (MARK_CATEGORIES.map
                  (fun cat => (alookup pm cat).getD 0)).sum := by
              rw [sevenCols, List.map_cons, List.sum_cons, if_pos rfl]
              rw [map_congr_mem MARK_CATEGORIES
                (fun c => if c = "Presentation" then pc.presentation
                 else (alookup pm c).getD 0)
                (fun cat => (alookup pm cat).getD 0)
                (fun cat hcat => by simp [cats_ne_presentation cat hcat])]
            have hlen : ((sevenCols.map
                (fun c => if c = "Presentation" then pc.presentation
                 else (alookup pm c).getD 0)).length : ℚ) = 7 := by
              simp [sevenCols, MARK_CATEGORIES]
            rw [hsum, hlen]
          rw [hmean] at hlk
          have hlk2 : alookup rs s = some (aset r
              (cfg.marks_col.getD "Project %")
              (Val.num ((pc.presentation + (MARK_CATEGORIES.map
                (fun cat => (alookup pm cat).getD 0)).sum) / 7))) := hlk
          simp only [Except.ok.injEq]
          show getCell ⟨addCols t1.cols [cfg.marks_col.getD "Project %"], rs⟩
            s (cfg.marks_col.getD "Project %") = some (Val.num
              ((pc.presentation + (MARK_CATEGORIES.map
                (fun cat => (alookup pm cat).getD 0)).sum) / 7))
          rw [getCell]
          simp only
          rw [hlk2]
          show alookup (aset r (cfg.marks_col.getD "Project %")
              (Val.num ((pc.presentation + (MARK_CATEGORIES.map
                (fun cat => (alookup pm cat).getD 0)).sum) / 7)))
              (cfg.marks_col.getD "Project %") = some (Val.num
              ((pc.presentation + (MARK_CATEGORIES.map
                (fun cat => (alookup pm cat).getD 0)).sum) / 7))
          rw [alookup_aset, if_pos rfl]

/-- C4 witness: the spec's worked example — presentation 8 and categories
9, 7, 8, 9, 8, 7 give the final score mean(8,9,7,8,9,8,7) = 8. -/
theorem claim4_witness :
    (getMarks cfgA (fun _ => [nbA]) false rosterA).map
      (fun t => getCell t "s1" "Project %") = .ok (some (Val.num 8)) := by
  have h := (claim4_final_score cfgA (fun _ => [nbA]) false rosterA
      (by with_unfolding_all decide) rfl).2 "projA" ⟨[("s1", 9)], 8⟩ pmA "s1"
      9 (.head _) (.head _) (by with_unfolding_all decide)
      (by with_unfolding_all decide)
  rw [show (cfgA.marks_col.getD "Project %") = "Project %" from rfl] at h
  rw [h]
  with_unfolding_all decide
